import Mathlib

/-!
Verification development for the `mle` configuration store
(`src/mle/configuration.py`).

The development shallowly embeds the parts of `configuration.py` that the
properties below are about:

* `Dict` — a Python `dict` mapping string keys to JSON values, embedded as
  an association list with unique-key semantics (lookup finds the first
  entry, insertion replaces in place, deletion removes the entry).
* `Config` — a `Configuration` viewed along its defaults chain:
  `Config.base vars dflt` is a configuration whose `defaults` is a plain
  mapping, `Config.chain vars parent` is one whose `defaults` is another
  `Configuration`.
* the read path (`__getitem__` / `__contains__`), the write path
  (`_set_value` / `__setitem__`), the delete path (`_delete_key`), the
  `defaults` setter diff, the `DeferredCallbacks` batch, the child
  propagation of `_run_callbacks` over a tree of configurations, the
  parent/child bookkeeping of the `defaults` setter and `__del__`, the
  `Autoloader` ignore count, and the `saved` context manager.

Values are treated as an opaque type `V` with decidable equality: every
JSON value compares structurally, and the sentinel `NOT_SET` is embedded
as `Option.none` (in Python `NOT_SET` is a singleton compared by identity,
so it differs from every JSON value and equals itself, exactly like
`none`).  Callbacks are identified by numeric ids; a callback invocation
is recorded as data instead of being executed.
-/

namespace MleConf

/-- Configuration keys are strings. -/
abbrev Key := String

/-- A Python `dict` from keys to `V`, embedded as an association list.
Python dictionaries have unique keys; all operations below use
first-match semantics. -/
abbrev Dict (V : Type) := List (Key × V)

namespace Dict

variable {V : Type}

/-- `d[k]` / `d.get(k)`: the first value stored under `k`, if any. -/
def lookup : Dict V → Key → Option V
  | [], _ => none
  | (k', v) :: rest, k => if k' = k then some v else lookup rest k

/-- `k in d` (dictionary membership). -/
def mem (d : Dict V) (k : Key) : Bool :=
  (lookup d k).isSome

/-- `d[k] = v`: replace the value under `k` in place, or append a new
entry. -/
def insert : Dict V → Key → V → Dict V
  | [], k, v => [(k, v)]
  | (k', v') :: rest, k, v =>
    if k' = k then (k, v) :: rest else (k', v') :: insert rest k v

/-- `d.pop(k)` / `del d[k]`: remove the entry stored under `k`. -/
def erase (d : Dict V) (k : Key) : Dict V :=
  d.filter (fun p => decide (p.1 ≠ k))

/-- `set(d)`: the set of keys of `d` (deduplicated key list). -/
def keyset (d : Dict V) : List Key :=
  (d.map Prod.fst).dedup

end Dict

/-- The union of two key lists in `{**a, **b}` order: all keys of `a`,
then the keys of `b` that are not already present. -/
def keyUnion (a b : List Key) : List Key :=
  a ++ b.filter (fun k => decide (k ∉ a))

/-- A `Configuration` seen along its defaults chain.

`base vars dflt` is a configuration whose `_defaults` is a plain mapping
`dflt`; `chain vars parent` is a configuration whose `_defaults` is the
configuration `parent`. -/
inductive Config (V : Type) : Type where
  | base (vars : Dict V) (dflt : Dict V)
  | chain (vars : Dict V) (parent : Config V)

namespace Config

variable {V : Type}

/-- The configuration's own `_variables` layer. -/
def varsOf : Config V → Dict V
  | .base vs _ => vs
  | .chain vs _ => vs

/-- Replace the `_variables` layer. -/
def withVars : Config V → Dict V → Config V
  | .base _ d, vs => .base vs d
  | .chain _ p, vs => .chain vs p

/-- `Configuration.__getitem__`: `self._variables.get(key, self._defaults[key])`,
with the `KeyError` raised by the defaults lookup caught and answered from
`self._variables` alone (`none` embeds a raised `KeyError`).  When the
defaults is itself a `Configuration`, `self._defaults[key]` is that
configuration's own `__getitem__`, so resolution recurses down the chain. -/
def getItem : Config V → Key → Option V
  | .base vs d, k =>
    match Dict.lookup d k with
    | some dv => some ((Dict.lookup vs k).getD dv)
    | none => Dict.lookup vs k
  | .chain vs p, k =>
    match getItem p k with
    | some dv => some ((Dict.lookup vs k).getD dv)
    | none => Dict.lookup vs k

/-- `self._defaults[key]`: the defaults-layer lookup used by
`__getitem__`, `_set_value` and `_delete_key` (`none` embeds `KeyError`). -/
def dfltGet : Config V → Key → Option V
  | .base _ d, k => Dict.lookup d k
  | .chain _ p, k => getItem p k

/-- The key list of the merged view `{**self._defaults, **self._variables}`,
with `__len__`'s truthiness test on `self._defaults` reproduced: an empty
defaults mapping (or an empty parent configuration) short-circuits to the
variables layer. -/
def mergedKeys : Config V → List Key
  | .base vs d =>
    if d.isEmpty then Dict.keyset vs else keyUnion (Dict.keyset d) (Dict.keyset vs)
  | .chain vs p =>
    let pk := mergedKeys p
    if pk.length = 0 then Dict.keyset vs else keyUnion pk (Dict.keyset vs)

/-- `Configuration.__len__`, which is also the truthiness of a
`Configuration` used by `__contains__` on a chained defaults. -/
def size (c : Config V) : Nat :=
  (mergedKeys c).length

/-- `Configuration.__contains__`: `key in self._variables or key in
self._defaults` when `self._defaults` is truthy, else `key in
self._variables`. -/
def containsB : Config V → Key → Bool
  | .base vs d, k =>
    if !d.isEmpty then Dict.mem vs k || Dict.mem d k else Dict.mem vs k
  | .chain vs p, k =>
    if size p ≠ 0 then Dict.mem vs k || containsB p k else Dict.mem vs k

/-- `key in self._defaults`: the membership test used by the `except`
branch of `_delete_key` (dictionary membership for a plain defaults
mapping, `Configuration.__contains__` for a chained one). -/
def dfltContains : Config V → Key → Bool
  | .base _ d, k => Dict.mem d k
  | .chain _ p, k => containsB p k

/-- `Configuration._set_value`: returns the updated configuration,
`requires_save`, and the `_run_callbacks` invocation it performs, if any,
as a `(current_value, previous_value)` pair (`none` embeds `NOT_SET`).

The three branches mirror the source: key already in `_variables`
(save and notify only on an unequal value); key only in `_defaults`
(always save — a new override pins the value locally — and notify only on
an unequal value); key absent everywhere (always save and notify with
previous `NOT_SET`). -/
def setValue [DecidableEq V] (c : Config V) (k : Key) (v : V) :
    Config V × Bool × Option (Option V × Option V) :=
  match Dict.lookup (varsOf c) k with
  | some previousValue =>
    let requiresSave := decide (previousValue ≠ v)
    (withVars c (Dict.insert (varsOf c) k v), requiresSave,
      if requiresSave then some (some v, some previousValue) else none)
  | none =>
    match dfltGet c k with
    | some previousValue =>
      (withVars c (Dict.insert (varsOf c) k v), true,
        if decide (previousValue ≠ v) then some (some v, some previousValue) else none)
    | none =>
      (withVars c (Dict.insert (varsOf c) k v), true, some (some v, none))

/-- `Configuration.__setitem__`: whether `self.save()` is called, i.e.
whether `_set_value` reported `requires_save` while autosave is enabled. -/
def setItemSaves [DecidableEq V] (c : Config V) (autosave : Bool) (k : Key) (v : V) : Bool :=
  (setValue c k v).2.1 && autosave

/-- `self._change_callbacks`: per-key registries of callbacks, identified
by numeric ids. -/
abbrev CbMap := Dict (List Nat)

/-- `Configuration._delete_key`: `self._variables.pop(key)`; on success
the `_run_callbacks` invocation is returned as a
`(current_value, previous_value)` pair and the updated `_change_callbacks`
registry reflects the `pop` of the key's callbacks performed when the key
is absent from `_defaults`.  On a missing key the embedded `KeyError`
carries the registry as updated by the `except` branch (which also drops
the key's callbacks when the key is not in `_defaults`). -/
def deleteKey (c : Config V) (cbs : CbMap) (k : Key) :
    Except CbMap (Config V × CbMap × (Option V × Option V)) :=
  match Dict.lookup (varsOf c) k with
  | some value =>
    let c' := withVars c (Dict.erase (varsOf c) k)
    match dfltGet c k with
    | none => .ok (c', Dict.erase cbs k, (none, some value))
    | some newValue => .ok (c', cbs, (some newValue, some value))
  | none =>
    .error (if dfltContains c k then cbs else Dict.erase cbs k)

end Config

/-- The assertion at the head of `Configuration._run_callbacks`:
`assert current_value != previous_value`.  `false` means the assertion
fails and the mutation raises `AssertionError`. -/
def runCallbacksAssert {V : Type} [DecidableEq V]
    (currentValue previousValue : Option V) : Bool :=
  decide (currentValue ≠ previousValue)

/-- `CallbackSet.add`: a callback set holds each callback at most once;
represented as an insertion-ordered duplicate-free list of callback ids. -/
def csAdd (s : List Nat) (cb : Nat) : List Nat :=
  if cb ∈ s then s else s ++ [cb]

/-- The `DeferredCallbacks` accumulator (`configuration.py`, the class at
the top of the module): `values` maps a key to
`(current, original_previous)`, `callbacks` is an ordered dict from key to
the `CallbackSet` of callbacks pending for that key. -/
structure DeferredCallbacks (V : Type) where
  values : Dict (Option V × Option V)
  callbacks : List (Key × List Nat)

/-- A fresh (cleared) `DeferredCallbacks`. -/
def DeferredCallbacks.empty {V : Type} : DeferredCallbacks V :=
  ⟨[], []⟩

/-- `DeferredCallbacks.add`: `setdefault` the key's callback set and add
the callback, `move_to_end` the key, keep the first previous value seen
for the key and overwrite the current value. -/
def DeferredCallbacks.add {V : Type} (dc : DeferredCallbacks V) (k : Key) (cb : Nat)
    (current previous : Option V) : DeferredCallbacks V :=
  let entry := (Dict.lookup dc.callbacks k).getD []
  let callbacks' := dc.callbacks.filter (fun p => decide (p.1 ≠ k)) ++ [(k, csAdd entry cb)]
  let originalPrevious :=
    match Dict.lookup dc.values k with
    | some pair => pair.2
    | none => previous
  ⟨Dict.insert dc.values k (current, originalPrevious), callbacks'⟩

/-- `DeferredCallbacks.run`: invoke every batched callback with its key's
coalesced `(current, previous)` pair; an invocation is recorded as
`(key, callback, current, previous)`. -/
def DeferredCallbacks.run {V : Type} (dc : DeferredCallbacks V) :
    List (Key × Nat × Option V × Option V) :=
  dc.callbacks.flatMap (fun p =>
    p.2.map (fun cb =>
      (p.1, cb, ((Dict.lookup dc.values p.1).getD (none, none)).1,
       ((Dict.lookup dc.values p.1).getD (none, none)).2)))

/-- `Configuration._run_callbacks` in deferred mode on a store without
children: add the `(current, previous)` pair to the deferred batch once
per callback registered for the key (callbacks enabled). -/
def deferNotify {V : Type} (cbs : Config.CbMap) (dc : DeferredCallbacks V) (k : Key)
    (current previous : Option V) : DeferredCallbacks V :=
  ((Dict.lookup cbs k).getD []).foldl (fun dc' cb => dc'.add k cb current previous) dc

/-- A run of `__setitem__` calls to key `k` inside one outermost
`callbacks_deferred` scope: each notifying set feeds the deferred batch
(`_defer_callbacks` is true for the whole scope). -/
def deferredSetsLoop {V : Type} [DecidableEq V] (cbs : Config.CbMap) :
    Config V × DeferredCallbacks V → Key → List V → Config V × DeferredCallbacks V
  | s, _, [] => s
  | (c, dc), k, v :: rest =>
    let r := Config.setValue c k v
    let dc' :=
      match r.2.2 with
      | some pair => deferNotify cbs dc k pair.1 pair.2
      | none => dc
    deferredSetsLoop cbs (r.1, dc') k rest

/-- The invocations flushed when the outermost `callbacks_deferred` scope
around a run of sets to key `k` exits. -/
def deferredScopeRun {V : Type} [DecidableEq V] (c : Config V) (cbs : Config.CbMap)
    (k : Key) (vs : List V) : List (Key × Nat × Option V × Option V) :=
  (deferredSetsLoop cbs (c, DeferredCallbacks.empty) k vs).2.run

/-- Whether every set in the run fires a notification at the moment it is
executed (its value differs from the key's effective value at that time). -/
def allNotifying {V : Type} [DecidableEq V] (c : Config V) (k : Key) : List V → Bool
  | [] => true
  | v :: rest =>
    (Config.setValue c k v).2.2.isSome && allNotifying (Config.setValue c k v).1 k rest

/-- A pending notification `(key, current, previous)`. -/
abbrev Notif (V : Type) := Key × Option V × Option V

/-- The `_run_callbacks` invocations performed by the `defaults` setter
when `self._defaults` is reassigned from `oldD` to `newD` over the
variables layer `vars`: keys removed from the defaults, keys added to the
defaults, and keys whose default value changed — each group restricted to
keys not shadowed by `vars`.  All of them run inside the setter's single
`callbacks_deferred` scope. -/
def setDefaultsNotifs {V : Type} [DecidableEq V] (vars oldD newD : Dict V) :
    List (Notif V) :=
  ((Dict.keyset oldD).filter (fun k => !Dict.mem newD k && !Dict.mem vars k)).map
      (fun k => (k, none, Dict.lookup oldD k))
  ++ ((Dict.keyset newD).filter (fun k => !Dict.mem oldD k && !Dict.mem vars k)).map
      (fun k => (k, Dict.lookup newD k, none))
  ++ ((Dict.keyset oldD).filter (fun k => Dict.mem newD k && !Dict.mem vars k
        && decide (Dict.lookup newD k ≠ Dict.lookup oldD k))).map
      (fun k => (k, Dict.lookup newD k, Dict.lookup oldD k))

/-- Feed a list of notifications through one `DeferredCallbacks` batch
(one `callbacks_deferred` scope) and flush it at scope exit. -/
def flushNotifs {V : Type} (cbs : Config.CbMap) (notifs : List (Notif V)) :
    List (Key × Nat × Option V × Option V) :=
  (notifs.foldl (fun dc n => deferNotify cbs dc n.1 n.2.1 n.2.2)
    DeferredCallbacks.empty).run

/-- The observer-relevant state of one `Configuration` node in a tree of
chained configurations: its `_variables`, `_change_callbacks`,
`_change_callbacks_enabled`, and `_defer_callbacks`. -/
structure NodeData (V : Type) where
  vars : Dict V
  cbs : Config.CbMap
  enabled : Bool
  deferFlag : Bool

/-- A `Configuration` together with its registered `_child_configs`; each
child is a configuration whose `defaults` is this node. -/
inductive CTree (V : Type) : Type where
  | node (data : NodeData V) (children : List (CTree V))

/-- The node's own data. -/
def CTree.dataOf {V : Type} : CTree V → NodeData V
  | .node d _ => d

/-- The node's registered children. -/
def CTree.childrenOf {V : Type} : CTree V → List (CTree V)
  | .node _ cs => cs

/-- One recorded callback invocation produced by `_run_callbacks`:
the path (child indices from the initiating node) of the configuration
whose registry held the callback, the key, the callback id, the
`(current, previous)` pair, and whether the invocation was routed into a
deferred batch. -/
structure Event (V : Type) where
  path : List Nat
  key : Key
  cb : Nat
  current : Option V
  previous : Option V
  wasDeferred : Bool
  deriving DecidableEq, Repr

mutual

/-- `Configuration._run_callbacks`: or the `defer` argument with the
node's own `_defer_callbacks`; if callbacks are enabled, invoke (or
batch) every callback registered for the key; then recurse into every
child that does not shadow the key in its own `_variables`. -/
def runCallbacks {V : Type} (t : CTree V) (p : List Nat) (k : Key)
    (cur prev : Option V) (defer : Bool) : List (Event V) :=
  match t with
  | .node d cs =>
    let defer' := defer || d.deferFlag
    (if d.enabled then
       ((Dict.lookup d.cbs k).getD []).map (fun i => ⟨p, k, i, cur, prev, defer'⟩)
     else [])
    ++ runChildCallbacks cs p 0 k cur prev defer'

/-- The child loop of `_run_callbacks`: children are visited in order,
skipping any child whose `_variables` contains the key. -/
def runChildCallbacks {V : Type} (cs : List (CTree V)) (p : List Nat) (i : Nat)
    (k : Key) (cur prev : Option V) (defer : Bool) : List (Event V) :=
  match cs with
  | [] => []
  | c :: rest =>
    (if Dict.mem (CTree.dataOf c).vars k then []
     else runCallbacks c (p ++ [i]) k cur prev defer)
    ++ runChildCallbacks rest p (i + 1) k cur prev defer

end

/-- `_set_value` executed at the root of a tree of configurations (the
root's own `defaults` is the plain mapping `rootDflt`), together with the
`_run_callbacks` events it produces. -/
def treeSetValue {V : Type} [DecidableEq V] (rootDflt : Dict V) (t : CTree V)
    (k : Key) (v : V) : CTree V × Bool × List (Event V) :=
  match t with
  | .node d cs =>
    match Dict.lookup d.vars k with
    | some previousValue =>
      let requiresSave := decide (previousValue ≠ v)
      let t' := CTree.node { d with vars := Dict.insert d.vars k v } cs
      (t', requiresSave,
        if requiresSave then runCallbacks t' [] k (some v) (some previousValue) false
        else [])
    | none =>
      match Dict.lookup rootDflt k with
      | some previousValue =>
        let t' := CTree.node { d with vars := Dict.insert d.vars k v } cs
        (t', true,
          if decide (previousValue ≠ v) then
            runCallbacks t' [] k (some v) (some previousValue) false
          else [])
      | none =>
        let t' := CTree.node { d with vars := Dict.insert d.vars k v } cs
        (t', true, runCallbacks t' [] k (some v) none false)

/-- `_delete_key` executed at the root of a tree of configurations,
together with the `_run_callbacks` events it produces (events are emitted
before the key's callbacks are popped).  The embedded `KeyError` carries
the registry as updated by the `except` branch. -/
def treeDeleteKey {V : Type} (rootDflt : Dict V) (t : CTree V) (k : Key) :
    Except Config.CbMap (CTree V × List (Event V)) :=
  match t with
  | .node d cs =>
    match Dict.lookup d.vars k with
    | none =>
      .error (if Dict.mem rootDflt k then d.cbs else Dict.erase d.cbs k)
    | some value =>
      let d' := { d with vars := Dict.erase d.vars k }
      match Dict.lookup rootDflt k with
      | none =>
        .ok (CTree.node { d' with cbs := Dict.erase d'.cbs k } cs,
             runCallbacks (CTree.node d' cs) [] k none (some value) false)
      | some newValue =>
        .ok (CTree.node d' cs,
             runCallbacks (CTree.node d' cs) [] k (some newValue) (some value) false)

/-- The `_run_callbacks` events of the `defaults` setter at the root of a
tree: the removed / added / changed groups of `setDefaultsNotifs`, each
run through `_run_callbacks`.  The setter's `callbacks_deferred` scope
sets the root's `_defer_callbacks` for the duration; since
`_run_callbacks` ors that flag into its `defer` argument, this is embedded
by passing `defer = true`. -/
def treeSetDefaults {V : Type} [DecidableEq V] (t : CTree V) (oldD newD : Dict V) :
    List (Event V) :=
  (setDefaultsNotifs (CTree.dataOf t).vars oldD newD).flatMap
    (fun n => runCallbacks t [] n.1 n.2.1 n.2.2 true)

/-- The effective value, for key `k`, of the child at index `i` of the
root: the child's own variables, else the root's variables, else the
root's plain defaults. -/
def effAtChild {V : Type} (rootDflt : Dict V) (t : CTree V) (i : Nat) (k : Key) :
    Option V :=
  match t with
  | .node d cs =>
    match cs.get? i with
    | none => none
    | some c =>
      match Dict.lookup (CTree.dataOf c).vars k with
      | some v => some v
      | none =>
        match Dict.lookup d.vars k with
        | some v => some v
        | none => Dict.lookup rootDflt k

/-- No event in the list lands on (or below) child `i` with key `k`. -/
def noEventUnder {V : Type} (i : Nat) (k : Key) (evs : List (Event V)) : Prop :=
  ∀ e ∈ evs, ¬(e.path.head? = some i ∧ e.key = k)

/-- The parent/child bookkeeping state of a collection of `Configuration`
objects, identified by numbers: `dflt c` is the configuration that is
`c`'s current `_defaults` (or `none` when the defaults is a plain
mapping), `children p` is `p._child_configs`. -/
structure CfgNet where
  dflt : Nat → Option Nat
  children : Nat → List Nat

/-- Pointwise update of a function out of `Nat`. -/
def updFun {α : Type} (f : Nat → α) (i : Nat) (a : α) : Nat → α :=
  fun j => if j = i then a else f j

/-- The parent/child bookkeeping of the `Configuration.defaults` setter:
short-circuit when the assigned object is already the current defaults;
otherwise update `c`'s defaults pointer and, when the new defaults is a
`Configuration`, append `c` to that parent's `_child_configs`.  The
setter performs no removal from the old parent's `_child_configs`. -/
def assignDefaults (s : CfgNet) (c : Nat) (newD : Option Nat) : CfgNet :=
  if newD = s.dflt c then s
  else
    let s1 : CfgNet := ⟨updFun s.dflt c newD, s.children⟩
    match newD with
    | some p => ⟨s1.dflt, updFun s1.children p (s1.children p ++ [c])⟩
    | none => s1

/-- The parent/child bookkeeping of `Configuration.__del__`: when the
dying configuration's `_defaults` is a `Configuration`, remove it from
that parent's `_child_configs` (first occurrence). -/
def destroyCfg (s : CfgNet) (c : Nat) : CfgNet :=
  match s.dflt c with
  | some p => ⟨s.dflt, updFun s.children p ((s.children p).erase c)⟩
  | none => s

/-- The state of one `Configuration` with autosave and autoload enabled:
the configuration, the `Autoloader`'s `_ignore_count`, the number of
queued filesystem modify events for the watched path, and counters of
fired change notifications and of watcher-triggered `load()` calls. -/
structure AutoState (V : Type) where
  cfg : Config V
  ignoreCount : Nat
  pending : Nat
  changeNotifs : Nat
  loads : Nat

/-- `Configuration.save` with an active autoloader:
`self._autoloader.ignore_change()` increments the ignore count before the
file is written; the write then queues a filesystem modify event for the
watched path. -/
def saveStep {V : Type} (s : AutoState V) : AutoState V :=
  { s with ignoreCount := s.ignoreCount + 1, pending := s.pending + 1 }

/-- `Configuration.__setitem__` with autosave enabled: `_set_value`, then
`save()` when it reported `requires_save`. -/
def setStep {V : Type} [DecidableEq V] (s : AutoState V) (k : Key) (v : V) :
    AutoState V :=
  let r := Config.setValue s.cfg k v
  let s' :=
    { s with
      cfg := r.1,
      changeNotifs := s.changeNotifs + (if r.2.2.isSome then 1 else 0) }
  if r.2.1 then saveStep s' else s'

/-- `Autoloader.on_modified` observing one queued modify event for the
watched path: if the ignore count is zero, `load()`; otherwise decrement
the ignore count and do nothing. -/
def modifyEventStep {V : Type} (s : AutoState V) : AutoState V :=
  if s.pending = 0 then s
  else
    let s' := { s with pending := s.pending - 1 }
    if s'.ignoreCount = 0 then { s' with loads := s'.loads + 1 }
    else { s' with ignoreCount := s'.ignoreCount - 1 }

/-- One claim-scheduled round: a `set()`, whose save-triggered modify
event is observed by the watcher before the next round starts. -/
def seqStep {V : Type} [DecidableEq V] (s : AutoState V) (kv : Key × V) : AutoState V :=
  modifyEventStep (setStep s kv.1 kv.2)

/-- N sequential `set()` calls, each acknowledged before the next. -/
def runSeq {V : Type} [DecidableEq V] (s : AutoState V) (ops : List (Key × V)) :
    AutoState V :=
  ops.foldl seqStep s

/-- Whether every set in a sequence of `(key, value)` writes fires a
notification at the moment it is executed. -/
def allNotifyingKV {V : Type} [DecidableEq V] (c : Config V) : List (Key × V) → Bool
  | [] => true
  | kv :: rest =>
    (Config.setValue c kv.1 kv.2).2.2.isSome
      && allNotifyingKV (Config.setValue c kv.1 kv.2).1 rest

/-- Discriminates the saves executed during `saved.__exit__`. -/
inductive SaveSrc where
  | fromSetter
  | fromPolicy
  deriving DecidableEq, Repr

/-- The `autosave` property setter: on an actual change store the new
value and, when the new value is `True`, call `save()` immediately. -/
def autosaveAssign (current b : Bool) : Bool × List SaveSrc :=
  if current ≠ b then (b, if b then [SaveSrc.fromSetter] else []) else (current, [])

/-- `saved.should_save_on_exit` (policies kept as their source strings). -/
def shouldSaveOnExit (policy : String) (excNone : Bool) : Bool :=
  policy == "exit" || (policy == "exit_no_errors" && excNone)

/-- `saved.__exit__`: first restore `self.configuration.autosave` to its
pre-scope value (which may itself trigger a save through the autosave
setter), then perform the policy-determined save.  Returns the final
autosave value and the saves executed, in order. -/
def savedExitTrace (policy : String) (wasAutosave currentAutosave excNone : Bool) :
    Bool × List SaveSrc :=
  let r := autosaveAssign currentAutosave wasAutosave
  (r.1, r.2 ++ (if shouldSaveOnExit policy excNone then [SaveSrc.fromPolicy] else []))

/-- Modelled from the claim's wording, for comparison: on exit only the
policy-determined save is executed, and autosave is restored to its
pre-scope value after that save decision is executed. -/
def savedExitTraceClaim (policy : String) (wasAutosave excNone : Bool) :
    Bool × List SaveSrc :=
  (wasAutosave, if shouldSaveOnExit policy excNone then [SaveSrc.fromPolicy] else [])

namespace Dict

variable {V : Type}

theorem lookup_isSome_iff (d : Dict V) (k : Key) :
    (lookup d k).isSome = true ↔ k ∈ d.map Prod.fst := by
  induction d with
  | nil => simp [lookup]
  | cons p rest ih =>
    obtain ⟨k', v⟩ := p
    by_cases h : k' = k
    · subst h
      simp [lookup]
    · simp only [lookup, if_neg h, List.map_cons, List.mem_cons, ih]
      constructor
      · exact Or.inr
      · rintro (rfl | hk)
        · exact absurd rfl h
        · exact hk

theorem mem_keyset_iff (d : Dict V) (k : Key) :
    k ∈ keyset d ↔ mem d k = true := by
  rw [keyset, List.mem_dedup, mem, lookup_isSome_iff]

theorem lookup_eq_none_iff (d : Dict V) (k : Key) :
    lookup d k = none ↔ mem d k = false := by
  rw [mem]
  cases lookup d k <;> simp

theorem lookup_insert_self (d : Dict V) (k : Key) (v : V) :
    lookup (insert d k v) k = some v := by
  induction d with
  | nil => simp [insert, lookup]
  | cons p rest ih =>
    obtain ⟨k', v'⟩ := p
    by_cases h : k' = k
    · simp [insert, h, lookup]
    · simp [insert, h, lookup, ih]

theorem insert_of_lookup_none (d : Dict V) (k : Key) (v : V)
    (h : lookup d k = none) : insert d k v = d ++ [(k, v)] := by
  induction d with
  | nil => simp [insert]
  | cons p rest ih =>
    obtain ⟨k', v'⟩ := p
    by_cases hk : k' = k
    · simp [lookup, hk] at h
    · simp only [lookup, if_neg hk] at h
      simp [insert, hk, ih h]

theorem lookup_cons_ne {k' : Key} {v : V} (d : Dict V) {k : Key} (h : k' ≠ k) :
    lookup ((k', v) :: d) k = lookup d k := by
  simp [lookup, h]

theorem filter_ne_of_lookup_none (d : Dict V) (k : Key)
    (h : lookup d k = none) : d.filter (fun p => decide (p.1 ≠ k)) = d := by
  induction d with
  | nil => rfl
  | cons p rest ih =>
    obtain ⟨k', v'⟩ := p
    by_cases hk : k' = k
    · simp [lookup, hk] at h
    · simp only [lookup, if_neg hk] at h
      simp only [List.filter_cons]
      simp [hk]
      simpa using ih h

end Dict

theorem mem_keyUnion (a b : List Key) (k : Key) :
    k ∈ keyUnion a b ↔ k ∈ a ∨ k ∈ b := by
  constructor
  · intro h
    rcases List.mem_append.mp h with h | h
    · exact Or.inl h
    · exact Or.inr (List.mem_of_mem_filter h)
  · intro h
    by_cases ha : k ∈ a
    · exact List.mem_append.mpr (Or.inl ha)
    · rcases h with h | h
      · exact absurd h ha
      · exact List.mem_append.mpr (Or.inr (List.mem_filter.mpr ⟨h, by simpa⟩))

namespace Config

variable {V : Type}

theorem varsOf_withVars (c : Config V) (vs : Dict V) :
    varsOf (withVars c vs) = vs := by
  cases c <;> rfl

theorem dfltGet_withVars (c : Config V) (vs : Dict V) (k : Key) :
    dfltGet (withVars c vs) k = dfltGet c k := by
  cases c <;> rfl

theorem getItem_eq_varsFirst (c : Config V) (k : Key) :
    getItem c k =
      match Dict.lookup (varsOf c) k with
      | some v => some v
      | none => dfltGet c k := by
  cases c with
  | base vs d =>
    show (match Dict.lookup d k with
          | some dv => some ((Dict.lookup vs k).getD dv)
          | none => Dict.lookup vs k) = _
    cases hd : Dict.lookup d k <;> cases hv : Dict.lookup vs k <;>
      simp [varsOf, dfltGet, hd, hv]
  | chain vs p =>
    show (match getItem p k with
          | some dv => some ((Dict.lookup vs k).getD dv)
          | none => Dict.lookup vs k) = _
    cases hd : getItem p k <;> cases hv : Dict.lookup vs k <;>
      simp [varsOf, dfltGet, hd, hv]

theorem mem_mergedKeys_of_getItem (c : Config V) (k : Key)
    (h : (getItem c k).isSome = true) : k ∈ mergedKeys c := by
  induction c with
  | base vs d =>
    rw [getItem_eq_varsFirst] at h
    rw [mergedKeys]
    by_cases hemp : d.isEmpty = true
    · rw [if_pos hemp]
      cases hv : Dict.lookup vs k with
      | some v => exact (Dict.mem_keyset_iff vs k).mpr (by simp [Dict.mem, hv])
      | none =>
        exfalso
        have hd : d = [] := List.isEmpty_iff.mp hemp
        simp [varsOf, hv, dfltGet, hd, Dict.lookup] at h
    · rw [if_neg hemp, mem_keyUnion]
      cases hv : Dict.lookup vs k with
      | some v =>
        exact Or.inr ((Dict.mem_keyset_iff vs k).mpr (by simp [Dict.mem, hv]))
      | none =>
        simp only [varsOf, hv, dfltGet] at h
        exact Or.inl ((Dict.mem_keyset_iff d k).mpr h)
  | chain vs p ih =>
    rw [getItem_eq_varsFirst] at h
    rw [mergedKeys]
    cases hv : Dict.lookup vs k with
    | some v =>
      have hk : k ∈ Dict.keyset vs :=
        (Dict.mem_keyset_iff vs k).mpr (by simp [Dict.mem, hv])
      by_cases hp : (mergedKeys p).length = 0
      · rw [if_pos hp]
        exact hk
      · rw [if_neg hp]
        exact (mem_keyUnion _ _ k).mpr (Or.inr hk)
    | none =>
      simp only [varsOf, hv, dfltGet] at h
      have hk : k ∈ mergedKeys p := ih h
      have hp : (mergedKeys p).length ≠ 0 := by
        intro h0
        rw [List.length_eq_zero] at h0
        simp [h0] at hk
      rw [if_neg hp]
      exact (mem_keyUnion _ _ k).mpr (Or.inl hk)

theorem getItem_eq_none_of_size_zero (p : Config V) (k : Key)
    (h : size p = 0) : getItem p k = none := by
  cases hg : getItem p k with
  | none => rfl
  | some v =>
    exfalso
    have hk := mem_mergedKeys_of_getItem p k (by simp [hg])
    rw [size, List.length_eq_zero] at h
    simp [h] at hk

theorem containsB_eq_isSome_getItem (c : Config V) (k : Key) :
    containsB c k = (getItem c k).isSome := by
  induction c with
  | base vs d =>
    rw [getItem_eq_varsFirst, containsB]
    by_cases hemp : d.isEmpty = true
    · have hd : d = [] := List.isEmpty_iff.mp hemp
      cases hv : Dict.lookup vs k <;>
        simp [hemp, hd, varsOf, hv, dfltGet, Dict.mem, Dict.lookup]
    · cases hv : Dict.lookup vs k <;>
        simp [hemp, varsOf, hv, dfltGet, Dict.mem]
  | chain vs p ih =>
    rw [getItem_eq_varsFirst, containsB]
    by_cases hp : size p = 0
    · have hnone := getItem_eq_none_of_size_zero p k hp
      cases hv : Dict.lookup vs k <;>
        simp [hp, varsOf, hv, dfltGet, hnone, Dict.mem]
    · cases hv : Dict.lookup vs k <;>
        simp [hp, varsOf, hv, dfltGet, Dict.mem, ih]

variable [DecidableEq V]

theorem setValue_fst (c : Config V) (k : Key) (v : V) :
    (setValue c k v).1 = withVars c (Dict.insert (varsOf c) k v) := by
  rw [setValue]
  cases Dict.lookup (varsOf c) k with
  | some pv => rfl
  | none => cases dfltGet c k <;> rfl

theorem getItem_setValue_self (c : Config V) (k : Key) (v : V) :
    getItem (setValue c k v).1 k = some v := by
  rw [setValue_fst, getItem_eq_varsFirst, varsOf_withVars,
    Dict.lookup_insert_self]

theorem lookup_vars_setValue_self (c : Config V) (k : Key) (v : V) :
    Dict.lookup (varsOf (setValue c k v).1) k = some v := by
  rw [setValue_fst, varsOf_withVars, Dict.lookup_insert_self]

theorem setValue_notif_eq (c : Config V) (k : Key) (v : V)
    (h : (setValue c k v).2.2.isSome = true) :
    (setValue c k v).2.2 = some (some v, getItem c k) := by
  rw [getItem_eq_varsFirst]
  rw [setValue] at h ⊢
  cases hv : Dict.lookup (varsOf c) k with
  | some pv =>
    by_cases hne : pv = v
    · simp [hv, hne] at h
    · simp [hne]
  | none =>
    cases hd : dfltGet c k with
    | some pv =>
      by_cases hne : pv = v
      · simp [hv, hd, hne] at h
      · simp [hne]
    | none => simp

theorem setValue_requiresSave_of_notif (c : Config V) (k : Key) (v : V)
    (h : (setValue c k v).2.2.isSome = true) : (setValue c k v).2.1 = true := by
  rw [setValue] at h ⊢
  cases hv : Dict.lookup (varsOf c) k with
  | some pv =>
    by_cases hne : pv = v
    · simp [hv, hne] at h
    · simp [hne]
  | none => cases hd : dfltGet c k <;> simp

end Config

/-- **C1.** Merge correctness of the read path: `S[k]` is `S.variables[k]`
when `k` is in the variables layer and otherwise the defaults-layer value
(resolved recursively when the defaults is itself a `Configuration`);
`__getitem__` raises `KeyError` exactly when the key is absent from both
layers; and `__contains__` mirrors this resolution without raising. -/
theorem c1_read_path_merge {V : Type} (c : Config V) (k : Key) :
    (Config.getItem c k =
      match Dict.lookup (Config.varsOf c) k with
      | some v => some v
      | none => Config.dfltGet c k)
    ∧ (Config.getItem c k = none ↔
        Dict.lookup (Config.varsOf c) k = none ∧ Config.dfltGet c k = none)
    ∧ Config.containsB c k = (Config.getItem c k).isSome := by
  refine ⟨Config.getItem_eq_varsFirst c k, ?_,
    Config.containsB_eq_isSome_getItem c k⟩
  rw [Config.getItem_eq_varsFirst]
  cases hv : Dict.lookup (Config.varsOf c) k <;> simp [hv]

/-- **C2 counterexample.** The claim is false on the code: with
`variables = {}` and `defaults = {a: 2}`, setting `a` to its current
effective value `2` makes `_set_value` return `requires_save = True`, so
with autosave enabled `__setitem__` does save the file (even though no
callback fires). -/
theorem c2_counterexample :
    Config.getItem (Config.base ([] : Dict Int) [("a", 2)]) "a" = some 2
    ∧ Config.setItemSaves (Config.base ([] : Dict Int) [("a", 2)]) true "a" 2 = true := by
  decide

/-- **C2 (amended).** Setting a key to its current effective value fires
no notification; it also performs no write when the key is already in
`variables`, but when the key is only inherited from defaults the write
does happen (`requires_save` is unconditionally `True` for a new local
override), so with autosave enabled the file is saved in that case. -/
theorem c2_change_triggered {V : Type} [DecidableEq V]
    (c : Config V) (k : Key) (v : V) (h : Config.getItem c k = some v) :
    (Config.setValue c k v).2.2 = none
    ∧ (Dict.mem (Config.varsOf c) k = true → (Config.setValue c k v).2.1 = false)
    ∧ (Dict.mem (Config.varsOf c) k = false → (Config.setValue c k v).2.1 = true) := by
  rw [Config.getItem_eq_varsFirst] at h
  cases hv : Dict.lookup (Config.varsOf c) k with
  | some pv =>
    rw [hv] at h
    obtain rfl : pv = v := by injection h
    simp [Config.setValue, hv, Dict.mem]
  | none =>
    rw [hv] at h
    have h' : Config.dfltGet c k = some v := h
    simp [Config.setValue, hv, h', Dict.mem]

/-- Witness for `c2_change_triggered` at `variables = {a: 1}`,
`defaults = {}`, setting `a` to `1`. -/
theorem c2_change_triggered_witness :
    (Config.setValue (Config.base [("a", (1 : Int))] []) "a" 1).2.2 = none
    ∧ (Config.setValue (Config.base [("a", (1 : Int))] []) "a" 1).2.1 = false := by
  have h := c2_change_triggered (Config.base [("a", (1 : Int))] []) "a" 1 (by decide)
  exact ⟨h.1, h.2.1 (by decide)⟩

/-- **C3.** Delete semantics: `__delitem__` raises `KeyError` exactly when
the key is absent from `variables` (even if inherited from defaults); when
the key is in `variables` and still effectively present via `defaults`,
deletion fires a change notification `(newInheritedValue, removedValue)`
(its current value is not `NOT_SET`, so it is never a delete notification)
and keeps the key's callback registrations; when the key is in `variables`
only, deletion fires a delete notification `(NOT_SET, removedValue)` and
drops all callbacks registered for that key. -/
theorem c3_delete_semantics {V : Type} (c : Config V) (cbs : Config.CbMap) (k : Key) :
    ((∃ e, Config.deleteKey c cbs k = .error e) ↔
        Dict.mem (Config.varsOf c) k = false)
    ∧ (∀ v nv, Dict.lookup (Config.varsOf c) k = some v →
        Config.dfltGet c k = some nv →
        Config.deleteKey c cbs k =
          .ok (Config.withVars c (Dict.erase (Config.varsOf c) k), cbs,
               (some nv, some v)))
    ∧ (∀ v, Dict.lookup (Config.varsOf c) k = some v →
        Config.dfltGet c k = none →
        Config.deleteKey c cbs k =
          .ok (Config.withVars c (Dict.erase (Config.varsOf c) k),
               Dict.erase cbs k, (none, some v))) := by
  refine ⟨?_, ?_, ?_⟩
  · constructor
    · rintro ⟨e, he⟩
      cases hv : Dict.lookup (Config.varsOf c) k with
      | none => simp [Dict.mem, hv]
      | some v =>
        exfalso
        cases hd : Config.dfltGet c k <;>
          simp [Config.deleteKey, hv, hd] at he
    · intro hv
      have hnone : Dict.lookup (Config.varsOf c) k = none :=
        (Dict.lookup_eq_none_iff _ _).mpr hv
      refine ⟨if Config.dfltContains c k then cbs else Dict.erase cbs k, ?_⟩
      simp [Config.deleteKey, hnone]
  · intro v nv hv hd
    simp [Config.deleteKey, hv, hd]
  · intro v hv hd
    simp [Config.deleteKey, hv, hd]

/-- Witness for `c3_delete_semantics`: deleting `a` from a child with
`variables = {a: 1}` chained on a parent holding `a: 2` fires the change
notification `(2, 1)` and keeps the registered callback. -/
theorem c3_delete_semantics_witness :
    Config.deleteKey (Config.chain [("a", (1 : Int))] (Config.base [("a", 2)] []))
        [("a", [0])] "a"
      = .ok (Config.chain [] (Config.base [("a", 2)] []), [("a", [0])],
             (some 2, some 1)) :=
  (c3_delete_semantics _ _ _).2.1 1 2 (by decide) (by decide)

/-- **C10.** `Configuration` can violate the assertion in
`_run_callbacks`: starting from `defaults = {a: 2}`, the public sequence
`config[a] = 2` (legal, fires nothing) followed by `del config[a]` makes
`_delete_key` invoke `_run_callbacks(a, 2, 2)` whose assertion
`current_value != previous_value` evaluates to `False`, so the deletion
raises `AssertionError`. -/
theorem c10_assert_violation :
    (Config.setValue (Config.base ([] : Dict Int) [("a", 2)]) "a" 2).2.2 = none
    ∧ Config.deleteKey
        (Config.setValue (Config.base ([] : Dict Int) [("a", 2)]) "a" 2).1 [] "a"
        = .ok (Config.base [] [("a", 2)], [], (some 2, some 2))
    ∧ runCallbacksAssert (some (2 : Int)) (some 2) = false :=
  ⟨rfl, rfl, rfl⟩

theorem mem_csAdd (s : List Nat) (cb x : Nat) : x ∈ csAdd s cb ↔ x ∈ s ∨ x = cb := by
  rw [csAdd]
  by_cases h : cb ∈ s
  · rw [if_pos h]
    constructor
    · exact Or.inl
    · rintro (hx | rfl)
      · exact hx
      · exact h
  · rw [if_neg h]
    simp

theorem mem_foldl_csAdd_of_mem (L : List Nat) (s : List Nat) (x : Nat) (hx : x ∈ s) :
    x ∈ L.foldl csAdd s := by
  induction L generalizing s with
  | nil => exact hx
  | cons a L ih => exact ih _ ((mem_csAdd s a x).mpr (Or.inl hx))

theorem mem_foldl_csAdd_of_mem_list (L : List Nat) (s : List Nat) (x : Nat)
    (hx : x ∈ L) : x ∈ L.foldl csAdd s := by
  induction L generalizing s with
  | nil => cases hx
  | cons a L ih =>
    rcases List.mem_cons.mp hx with rfl | hx
    · exact mem_foldl_csAdd_of_mem L (csAdd s x) x ((mem_csAdd s x x).mpr (Or.inr rfl))
    · exact ih _ hx

theorem foldl_csAdd_absorb (L s : List Nat) (h : ∀ x ∈ L, x ∈ s) :
    L.foldl csAdd s = s := by
  induction L with
  | nil => rfl
  | cons a L ih =>
    have ha : a ∈ s := h a (by simp)
    rw [List.foldl_cons, csAdd, if_pos ha]
    exact ih (fun x hx => h x (by simp [hx]))

theorem foldl_csAdd_of_nodup (L : List Nat) :
    ∀ s, L.Nodup → (∀ x ∈ s, x ∉ L) → L.foldl csAdd s = s ++ L := by
  induction L with
  | nil =>
    intro s _ _
    simp
  | cons a L ih =>
    intro s hnd hdisj
    have ha : a ∉ s := fun h => hdisj a h (by simp)
    rw [List.foldl_cons, csAdd, if_neg ha]
    rw [ih (s ++ [a]) (List.Nodup.of_cons hnd) ?_]
    · simp
    · intro x hx
      rcases List.mem_append.mp hx with hx | hx
      · intro hxL
        exact hdisj x hx (by simp [hxL])
      · obtain rfl : x = a := by simpa using hx
        exact (List.nodup_cons.mp hnd).1

theorem dcAdd_single {V : Type} (x P cur prev : Option V) (k : Key) (S : List Nat)
    (cb : Nat) :
    DeferredCallbacks.add ⟨[(k, (x, P))], [(k, S)]⟩ k cb cur prev
      = ⟨[(k, (cur, P))], [(k, csAdd S cb)]⟩ := by
  simp [DeferredCallbacks.add, Dict.lookup, Dict.insert, List.filter_cons]

theorem dcAdd_empty {V : Type} (cur prev : Option V) (k : Key) (cb : Nat) :
    DeferredCallbacks.add DeferredCallbacks.empty k cb cur prev
      = ⟨[(k, (cur, prev))], [(k, csAdd [] cb)]⟩ := by
  simp [DeferredCallbacks.add, DeferredCallbacks.empty, Dict.lookup, Dict.insert,
    csAdd]

theorem foldl_dcAdd_single {V : Type} (L : List Nat) :
    ∀ (P cur prev : Option V) (k : Key) (S : List Nat),
    L.foldl (fun dc cb => DeferredCallbacks.add dc k cb cur prev)
        ⟨[(k, (cur, P))], [(k, S)]⟩
      = ⟨[(k, (cur, P))], [(k, L.foldl csAdd S)]⟩ := by
  induction L with
  | nil =>
    intro P cur prev k S
    rfl
  | cons a L ih =>
    intro P cur prev k S
    rw [List.foldl_cons, dcAdd_single, ih, List.foldl_cons]

theorem foldl_dcAdd_single_ne {V : Type} (a : Nat) (L : List Nat)
    (x P cur prev : Option V) (k : Key) (S : List Nat) :
    (a :: L).foldl (fun dc cb => DeferredCallbacks.add dc k cb cur prev)
        ⟨[(k, (x, P))], [(k, S)]⟩
      = ⟨[(k, (cur, P))], [(k, (a :: L).foldl csAdd S)]⟩ := by
  rw [List.foldl_cons, dcAdd_single, foldl_dcAdd_single, List.foldl_cons]

theorem foldl_dcAdd_empty {V : Type} (a : Nat) (L : List Nat)
    (cur prev : Option V) (k : Key) :
    (a :: L).foldl (fun dc cb => DeferredCallbacks.add dc k cb cur prev)
        DeferredCallbacks.empty
      = ⟨[(k, (cur, prev))], [(k, (a :: L).foldl csAdd [])]⟩ := by
  rw [List.foldl_cons, dcAdd_empty, foldl_dcAdd_single, List.foldl_cons]

theorem run_single {V : Type} (k : Key) (pair : Option V × Option V) (S : List Nat) :
    DeferredCallbacks.run ⟨[(k, pair)], [(k, S)]⟩
      = S.map (fun cb => (k, cb, pair.1, pair.2)) := by
  simp [DeferredCallbacks.run, Dict.lookup]

theorem deferredSetsLoop_no_cbs {V : Type} [DecidableEq V] (cbs : Config.CbMap)
    (k : Key) (hL : (Dict.lookup cbs k).getD [] = []) :
    ∀ (vs : List V) (c : Config V),
    (deferredSetsLoop cbs (c, DeferredCallbacks.empty) k vs).2
      = DeferredCallbacks.empty := by
  intro vs
  induction vs with
  | nil =>
    intro c
    rfl
  | cons v rest ih =>
    intro c
    rw [deferredSetsLoop]
    cases hr : (Config.setValue c k v).2.2 with
    | none => exact ih _
    | some pair =>
      show (deferredSetsLoop cbs (_, deferNotify cbs DeferredCallbacks.empty k
        pair.1 pair.2) k rest).2 = _
      rw [deferNotify, hL, List.foldl_nil]
      exact ih _

theorem deferredSetsLoop_inv {V : Type} [DecidableEq V] (cbs : Config.CbMap)
    (k : Key) (a : Nat) (L' : List Nat)
    (hL : (Dict.lookup cbs k).getD [] = a :: L') :
    ∀ (vs : List V) (c : Config V) (w : V) (P : Option V) (S : List Nat),
    Dict.lookup (Config.varsOf c) k = some w →
    allNotifying c k vs = true →
    (∀ x ∈ a :: L', x ∈ S) →
    (deferredSetsLoop cbs (c, ⟨[(k, (some w, P))], [(k, S)]⟩) k vs).2
      = ⟨[(k, (some (vs.getLastD w), P))], [(k, S)]⟩ := by
  intro vs
  induction vs with
  | nil =>
    intro c w P S _ _ _
    rfl
  | cons v rest ih =>
    intro c w P S hw hn hmem
    rw [List.getLastD_cons]
    rw [allNotifying, Bool.and_eq_true] at hn
    have h1 : (Config.setValue c k v).2.2.isSome = true := hn.1
    have h2 : allNotifying (Config.setValue c k v).1 k rest = true := hn.2
    have hnotif : (Config.setValue c k v).2.2 = some (some v, some w) := by
      rw [Config.setValue_notif_eq c k v h1, Config.getItem_eq_varsFirst, hw]
    rw [deferredSetsLoop, hnotif]
    show (deferredSetsLoop cbs (_, deferNotify cbs ⟨[(k, (some w, P))], [(k, S)]⟩ k
      (some v) (some w)) k rest).2 = _
    rw [deferNotify, hL, foldl_dcAdd_single_ne, foldl_csAdd_absorb _ _ hmem]
    exact ih (Config.setValue c k v).1 v P S
      (Config.lookup_vars_setValue_self c k v) h2 hmem

/-- **C7.** Deferred coalescing: a sequence of notifying sets to key `k`
inside one outermost `callbacks_deferred` scope invokes, at scope exit,
each callback registered for `k` exactly once, with the current value
equal to the final value set and the previous value equal to the key's
effective value before the scope (the batch retains the first previous
value and overwrites the current value on each change). -/
theorem c7_deferred_coalescing {V : Type} [DecidableEq V]
    (c : Config V) (cbs : Config.CbMap) (k : Key) (v : V) (rest : List V)
    (hnodup : ((Dict.lookup cbs k).getD []).Nodup)
    (hnot : allNotifying c k (v :: rest) = true) :
    deferredScopeRun c cbs k (v :: rest)
      = ((Dict.lookup cbs k).getD []).map
          (fun cb => (k, cb, some (rest.getLastD v), Config.getItem c k)) := by
  rw [deferredScopeRun]
  cases hL : (Dict.lookup cbs k).getD [] with
  | nil =>
    rw [deferredSetsLoop_no_cbs cbs k hL]
    rfl
  | cons a L' =>
    rw [allNotifying, Bool.and_eq_true] at hnot
    have h1 : (Config.setValue c k v).2.2.isSome = true := hnot.1
    have h2 : allNotifying (Config.setValue c k v).1 k rest = true := hnot.2
    have hnotif : (Config.setValue c k v).2.2 = some (some v, Config.getItem c k) :=
      Config.setValue_notif_eq c k v h1
    have hS0 : (a :: L').foldl csAdd [] = a :: L' := by
      rw [hL] at hnodup
      rw [foldl_csAdd_of_nodup (a :: L') [] hnodup (by simp)]
      rfl
    rw [deferredSetsLoop, hnotif]
    show (deferredSetsLoop cbs (_, deferNotify cbs DeferredCallbacks.empty k
      (some v) (Config.getItem c k)) k rest).2.run = _
    rw [deferNotify, hL, foldl_dcAdd_empty, hS0]
    rw [deferredSetsLoop_inv cbs k a L' hL rest
      (Config.setValue c k v).1 v (Config.getItem c k) (a :: L')
      (Config.lookup_vars_setValue_self c k v) h2 (fun x hx => hx)]
    rw [run_single]

/-- Witness for `c7_deferred_coalescing`: three sets of `a` to `5`, `6`,
`7` inside one deferred scope, with two callbacks registered, flush
exactly one invocation per callback carrying `(7, NOT_SET)`. -/
theorem c7_deferred_coalescing_witness :
    deferredScopeRun (Config.base ([] : Dict Int) []) [("a", [0, 1])] "a" [5, 6, 7]
      = [("a", 0, some 7, none), ("a", 1, some 7, none)] := by
  have h := c7_deferred_coalescing (Config.base ([] : Dict Int) []) [("a", [0, 1])]
    "a" 5 [6, 7] (by decide) (by decide)
  exact h

namespace Dict

variable {V : Type}

theorem lookup_append (d e : Dict V) (k : Key) :
    lookup (d ++ e) k =
      match lookup d k with
      | some v => some v
      | none => lookup e k := by
  induction d with
  | nil => simp [lookup]
  | cons p rest ih =>
    obtain ⟨k', v⟩ := p
    by_cases h : k' = k
    · simp [lookup, h]
    · simp only [List.cons_append, lookup, if_neg h]
      exact ih

theorem lookup_single_self (k : Key) (v : V) : lookup [(k, v)] k = some v := by
  simp [lookup]

theorem lookup_single_ne (k k2 : Key) (v : V) (h : k ≠ k2) :
    lookup [(k, v)] k2 = none := by
  simp [lookup, h]

theorem insert_eq_self_of_lookup (d : Dict V) (k : Key) (v : V)
    (h : lookup d k = some v) : insert d k v = d := by
  induction d with
  | nil => simp [lookup] at h
  | cons p rest ih =>
    obtain ⟨k', v'⟩ := p
    by_cases hk : k' = k
    · subst hk
      rw [lookup, if_pos rfl] at h
      obtain rfl : v' = v := by injection h
      simp [insert]
    · rw [lookup, if_neg hk] at h
      simp [insert, hk, ih h]

end Dict

theorem dcAdd_present {V : Type} (dc : DeferredCallbacks V) (k : Key)
    (x P cur prev : Option V) (front : List (Key × List Nat)) (S : List Nat)
    (cb : Nat) (hv : Dict.lookup dc.values k = some (x, P))
    (hc : dc.callbacks = front ++ [(k, S)])
    (hfront : Dict.lookup front k = none) :
    DeferredCallbacks.add dc k cb cur prev
      = ⟨Dict.insert dc.values k (cur, P), front ++ [(k, csAdd S cb)]⟩ := by
  rw [DeferredCallbacks.add, hv, hc]
  have hentry : Dict.lookup (front ++ [(k, S)]) k = some S := by
    rw [Dict.lookup_append, hfront, Dict.lookup_single_self]
  rw [hentry]
  have hfilter : (front ++ [(k, S)]).filter (fun p => decide (p.1 ≠ k))
      = front := by
    rw [List.filter_append, Dict.filter_ne_of_lookup_none front k hfront]
    simp
  rw [hfilter]
  rfl

theorem foldl_dcAdd_stable {V : Type} (L : List Nat) :
    ∀ (dc : DeferredCallbacks V) (k : Key) (cur P prev : Option V)
      (front : List (Key × List Nat)) (S : List Nat),
    Dict.lookup dc.values k = some (cur, P) →
    dc.callbacks = front ++ [(k, S)] →
    Dict.lookup front k = none →
    L.foldl (fun dc' cb => DeferredCallbacks.add dc' k cb cur prev) dc
      = ⟨dc.values, front ++ [(k, L.foldl csAdd S)]⟩ := by
  induction L with
  | nil =>
    intro dc k cur P prev front S hv hc _
    rw [List.foldl_nil, List.foldl_nil, ← hc]
  | cons cb L ih =>
    intro dc k cur P prev front S hv hc hfront
    rw [List.foldl_cons, List.foldl_cons,
      dcAdd_present dc k cur P cur prev front S cb hv hc hfront,
      Dict.insert_eq_self_of_lookup dc.values k (cur, P) hv]
    exact ih ⟨dc.values, front ++ [(k, csAdd S cb)]⟩ k cur P prev front
      (csAdd S cb) hv rfl hfront

theorem foldl_dcAdd_fresh {V : Type} (a : Nat) (L : List Nat)
    (dc : DeferredCallbacks V) (k : Key) (cur prev : Option V)
    (hv : Dict.lookup dc.values k = none)
    (hc : Dict.lookup dc.callbacks k = none) :
    (a :: L).foldl (fun dc' cb => DeferredCallbacks.add dc' k cb cur prev) dc
      = ⟨dc.values ++ [(k, (cur, prev))],
         dc.callbacks ++ [(k, (a :: L).foldl csAdd [])]⟩ := by
  rw [List.foldl_cons]
  have hadd : DeferredCallbacks.add dc k a cur prev
      = ⟨dc.values ++ [(k, (cur, prev))], dc.callbacks ++ [(k, csAdd [] a)]⟩ := by
    rw [DeferredCallbacks.add, hv, hc]
    rw [Dict.filter_ne_of_lookup_none dc.callbacks k hc,
      Dict.insert_of_lookup_none dc.values k (cur, prev) hv]
    rfl
  rw [hadd]
  have hv' : Dict.lookup (dc.values ++ [(k, (cur, prev))]) k = some (cur, prev) := by
    rw [Dict.lookup_append, hv, Dict.lookup_single_self]
  rw [foldl_dcAdd_stable L ⟨dc.values ++ [(k, (cur, prev))],
      dc.callbacks ++ [(k, csAdd [] a)]⟩ k cur prev prev dc.callbacks
      (csAdd [] a) hv' rfl hc, List.foldl_cons]

theorem foldl_deferNotify_batch {V : Type} (cbs : Config.CbMap) :
    ∀ (notifs : List (Notif V)) (dc : DeferredCallbacks V),
    (notifs.map (fun n => n.1)).Nodup →
    (∀ n ∈ notifs, Dict.lookup dc.values n.1 = none
      ∧ Dict.lookup dc.callbacks n.1 = none) →
    notifs.foldl (fun dc' n => deferNotify cbs dc' n.1 n.2.1 n.2.2) dc
      = ⟨dc.values ++ (notifs.filter
            (fun n => !((Dict.lookup cbs n.1).getD []).isEmpty)).map
            (fun n => (n.1, (n.2.1, n.2.2))),
         dc.callbacks ++ (notifs.filter
            (fun n => !((Dict.lookup cbs n.1).getD []).isEmpty)).map
            (fun n => (n.1, ((Dict.lookup cbs n.1).getD []).foldl csAdd []))⟩ := by
  intro notifs
  induction notifs with
  | nil =>
    intro dc _ _
    simp
  | cons n rest ih =>
    intro dc hnd hfresh
    rw [List.map_cons, List.nodup_cons] at hnd
    rw [List.foldl_cons]
    cases hL : (Dict.lookup cbs n.1).getD [] with
    | nil =>
      have hstep : deferNotify cbs dc n.1 n.2.1 n.2.2 = dc := by
        rw [deferNotify, hL, List.foldl_nil]
      rw [hstep]
      have hlive : (n :: rest).filter
            (fun m => !((Dict.lookup cbs m.1).getD []).isEmpty)
          = rest.filter (fun m => !((Dict.lookup cbs m.1).getD []).isEmpty) := by
        rw [List.filter_cons]
        simp [hL]
      rw [hlive]
      exact ih dc hnd.2 (fun m hm => hfresh m (by simp [hm]))
    | cons a L' =>
      have hstep : deferNotify cbs dc n.1 n.2.1 n.2.2
          = ⟨dc.values ++ [(n.1, (n.2.1, n.2.2))],
             dc.callbacks ++ [(n.1, (a :: L').foldl csAdd [])]⟩ := by
        rw [deferNotify, hL]
        exact foldl_dcAdd_fresh a L' dc n.1 n.2.1 n.2.2
          (hfresh n (by simp)).1 (hfresh n (by simp)).2
      rw [hstep]
      have hkey : ∀ m ∈ rest, m.1 ≠ n.1 := by
        intro m hm heq
        exact hnd.1 (heq ▸ List.mem_map.mpr ⟨m, hm, rfl⟩)
      have hfresh' : ∀ m ∈ rest,
          Dict.lookup (dc.values ++ [(n.1, (n.2.1, n.2.2))]) m.1 = none
          ∧ Dict.lookup (dc.callbacks ++ [(n.1, (a :: L').foldl csAdd [])]) m.1
              = none := by
        intro m hm
        constructor
        · rw [Dict.lookup_append, (hfresh m (by simp [hm])).1,
            Dict.lookup_single_ne n.1 m.1 _ (fun h => hkey m hm h.symm)]
        · rw [Dict.lookup_append, (hfresh m (by simp [hm])).2,
            Dict.lookup_single_ne n.1 m.1 _ (fun h => hkey m hm h.symm)]
      rw [ih ⟨dc.values ++ [(n.1, (n.2.1, n.2.2))],
          dc.callbacks ++ [(n.1, (a :: L').foldl csAdd [])]⟩ hnd.2 hfresh']
      have hlive : (n :: rest).filter
            (fun m => !((Dict.lookup cbs m.1).getD []).isEmpty)
          = n :: rest.filter (fun m => !((Dict.lookup cbs m.1).getD []).isEmpty) := by
        rw [List.filter_cons]
        simp [hL]
      rw [hlive]
      simp [hL, List.append_assoc]

theorem run_batch {V : Type} (S0 : Key → List Nat) :
    ∀ (live : List (Notif V)) (vals : Dict (Option V × Option V)),
    (∀ n ∈ live, Dict.lookup vals n.1 = some (n.2.1, n.2.2)) →
    DeferredCallbacks.run ⟨vals, live.map (fun n => (n.1, S0 n.1))⟩
      = live.flatMap (fun n => (S0 n.1).map (fun cb => (n.1, cb, n.2.1, n.2.2))) := by
  intro live
  induction live with
  | nil =>
    intro vals _
    simp [DeferredCallbacks.run]
  | cons n rest ih =>
    intro vals hvals
    rw [DeferredCallbacks.run] at *
    simp only [List.map_cons, List.flatMap_cons]
    rw [hvals n (by simp)]
    have htail := ih vals (fun m hm => hvals m (by simp [hm]))
    simp only [DeferredCallbacks.run] at htail
    simp only [htail]
    rfl

theorem lookup_map_self {V W : Type} (f : Notif V → W) :
    ∀ (l : List (Notif V)), (l.map (fun n => n.1)).Nodup →
    ∀ n ∈ l, Dict.lookup (l.map (fun m => (m.1, f m))) n.1 = some (f n) := by
  intro l
  induction l with
  | nil =>
    intro _ n hn
    cases hn
  | cons m rest ih =>
    intro hnd n hn
    rw [List.map_cons, List.nodup_cons] at hnd
    rcases List.mem_cons.mp hn with rfl | hn
    · simp [Dict.lookup]
    · have hne : m.1 ≠ n.1 := by
        intro heq
        exact hnd.1 (heq ▸ List.mem_map.mpr ⟨n, hn, rfl⟩)
      rw [List.map_cons, Dict.lookup_cons_ne _ hne]
      exact ih hnd.2 n hn

theorem flatMap_filter_of_empty {V W : Type} (p : Notif V → Bool)
    (g : Notif V → List W) (h : ∀ n, p n = false → g n = []) :
    ∀ l : List (Notif V), (l.filter p).flatMap g = l.flatMap g := by
  intro l
  induction l with
  | nil => rfl
  | cons n rest ih =>
    rw [List.filter_cons]
    cases hp : p n with
    | true => simp [List.flatMap_cons, ih]
    | false => simp [List.flatMap_cons, ih, h n hp]

theorem flushNotifs_eq {V : Type} (cbs : Config.CbMap) (notifs : List (Notif V))
    (hkeys : (notifs.map (fun n => n.1)).Nodup)
    (hcbs : ∀ k2, ((Dict.lookup cbs k2).getD []).Nodup) :
    flushNotifs cbs notifs
      = notifs.flatMap (fun n => ((Dict.lookup cbs n.1).getD []).map
          (fun cb => (n.1, cb, n.2.1, n.2.2))) := by
  rw [flushNotifs]
  rw [foldl_deferNotify_batch cbs notifs DeferredCallbacks.empty hkeys
    (fun n _ => ⟨rfl, rfl⟩)]
  have hS0 : ∀ k2 : Key, ((Dict.lookup cbs k2).getD []).foldl csAdd []
      = (Dict.lookup cbs k2).getD [] := by
    intro k2
    rw [foldl_csAdd_of_nodup _ [] (hcbs k2) (by simp)]
    rfl
  have hlnd : ((notifs.filter
        (fun n => !((Dict.lookup cbs n.1).getD []).isEmpty)).map
        (fun n => n.1)).Nodup :=
    List.Nodup.sublist (List.Sublist.map _ (List.filter_sublist _)) hkeys
  have hrun := run_batch (fun k2 => ((Dict.lookup cbs k2).getD []).foldl csAdd [])
    (notifs.filter (fun n => !((Dict.lookup cbs n.1).getD []).isEmpty))
    ((notifs.filter (fun n => !((Dict.lookup cbs n.1).getD []).isEmpty)).map
      (fun m => (m.1, (m.2.1, m.2.2))))
    (fun n hn => lookup_map_self (fun m => (m.2.1, m.2.2)) _ hlnd n hn)
  simp only [show (DeferredCallbacks.empty : DeferredCallbacks V).values = []
      from rfl,
    show (DeferredCallbacks.empty : DeferredCallbacks V).callbacks = [] from rfl,
    List.nil_append]
  rw [hrun]
  simp only [hS0]
  apply flatMap_filter_of_empty
  intro n hp
  have hnil : (Dict.lookup cbs n.1).getD [] = [] := by
    simpa using hp
  rw [hnil]
  rfl

theorem mem_setDefaultsNotifs_iff {V : Type} [DecidableEq V]
    (vars oldD newD : Dict V) (k : Key) (cur prev : Option V) :
    (k, cur, prev) ∈ setDefaultsNotifs vars oldD newD ↔
      Dict.mem vars k = false ∧
      ((Dict.mem oldD k = true ∧ Dict.mem newD k = false ∧ cur = none ∧
          prev = Dict.lookup oldD k)
       ∨ (Dict.mem newD k = true ∧ Dict.mem oldD k = false ∧
          cur = Dict.lookup newD k ∧ prev = none)
       ∨ (Dict.mem oldD k = true ∧ Dict.mem newD k = true ∧
          Dict.lookup newD k ≠ Dict.lookup oldD k ∧
          cur = Dict.lookup newD k ∧ prev = Dict.lookup oldD k)) := by
  rw [setDefaultsNotifs]
  constructor
  · intro h
    rcases List.mem_append.mp h with h12 | h3
    · rcases List.mem_append.mp h12 with h1 | h2
      · obtain ⟨a, haf, heq⟩ := List.mem_map.mp h1
        obtain ⟨hak, hcond⟩ := List.mem_filter.mp haf
        obtain ⟨rfl, rfl, rfl⟩ :
            a = k ∧ none = cur ∧ Dict.lookup oldD a = prev := by
          simpa using heq
        simp only [Bool.and_eq_true, Bool.not_eq_true'] at hcond
        exact ⟨hcond.2,
          Or.inl ⟨(Dict.mem_keyset_iff _ _).mp hak, hcond.1, rfl, rfl⟩⟩
      · obtain ⟨a, haf, heq⟩ := List.mem_map.mp h2
        obtain ⟨hak, hcond⟩ := List.mem_filter.mp haf
        obtain ⟨rfl, rfl, rfl⟩ :
            a = k ∧ Dict.lookup newD a = cur ∧ none = prev := by
          simpa using heq
        simp only [Bool.and_eq_true, Bool.not_eq_true'] at hcond
        exact ⟨hcond.2,
          Or.inr (Or.inl ⟨(Dict.mem_keyset_iff _ _).mp hak, hcond.1, rfl, rfl⟩)⟩
    · obtain ⟨a, haf, heq⟩ := List.mem_map.mp h3
      obtain ⟨hak, hcond⟩ := List.mem_filter.mp haf
      obtain ⟨rfl, rfl, rfl⟩ :
          a = k ∧ Dict.lookup newD a = cur ∧ Dict.lookup oldD a = prev := by
        simpa using heq
      simp only [Bool.and_eq_true, Bool.not_eq_true', decide_eq_true_eq] at hcond
      exact ⟨hcond.1.2,
        Or.inr (Or.inr ⟨(Dict.mem_keyset_iff _ _).mp hak, hcond.1.1, hcond.2,
          rfl, rfl⟩)⟩
  · rintro ⟨hvars, hcase⟩
    rcases hcase with ⟨ho, hn, rfl, rfl⟩ | ⟨hn, ho, rfl, rfl⟩ |
      ⟨ho, hn, hne, rfl, rfl⟩
    · refine List.mem_append.mpr (Or.inl (List.mem_append.mpr (Or.inl ?_)))
      refine List.mem_map.mpr ⟨k, ?_, rfl⟩
      refine List.mem_filter.mpr ⟨(Dict.mem_keyset_iff _ _).mpr ho, ?_⟩
      simp [hn, hvars]
    · refine List.mem_append.mpr (Or.inl (List.mem_append.mpr (Or.inr ?_)))
      refine List.mem_map.mpr ⟨k, ?_, rfl⟩
      refine List.mem_filter.mpr ⟨(Dict.mem_keyset_iff _ _).mpr hn, ?_⟩
      simp [ho, hvars]
    · refine List.mem_append.mpr (Or.inr ?_)
      refine List.mem_map.mpr ⟨k, ?_, rfl⟩
      refine List.mem_filter.mpr ⟨(Dict.mem_keyset_iff _ _).mpr ho, ?_⟩
      simp [hn, hvars, hne]

theorem setDefaultsNotifs_keys_nodup {V : Type} [DecidableEq V]
    (vars oldD newD : Dict V) :
    ((setDefaultsNotifs vars oldD newD).map (fun n => n.1)).Nodup := by
  rw [setDefaultsNotifs]
  have ecollapse : ∀ (f : Key → Option V × Option V) (l : List Key),
      ((l.map (fun k2 => ((k2, f k2) : Notif V))).map (fun n => n.1)) = l := by
    intro f l
    induction l with
    | nil => rfl
    | cons a l ih => simpa using ih
  rw [List.map_append, List.map_append]
  rw [ecollapse (fun k2 => (none, Dict.lookup oldD k2)),
    ecollapse (fun k2 => (Dict.lookup newD k2, none)),
    ecollapse (fun k2 => (Dict.lookup newD k2, Dict.lookup oldD k2))]
  rw [List.nodup_append, List.nodup_append]
  refine ⟨⟨List.Nodup.filter _ (List.nodup_dedup _),
    List.Nodup.filter _ (List.nodup_dedup _), ?_⟩,
    List.Nodup.filter _ (List.nodup_dedup _), ?_⟩
  · intro x hx1 hx2
    have c1 := List.of_mem_filter hx1
    have hko := List.mem_of_mem_filter hx1
    have c2 := List.of_mem_filter hx2
    simp only [Bool.and_eq_true, Bool.not_eq_true'] at c1 c2
    rw [Dict.mem_keyset_iff] at hko
    rw [hko] at c2
    exact Bool.true_eq_false.mp c2.1
  · intro x hx12 hx3
    have c3 := List.of_mem_filter hx3
    simp only [Bool.and_eq_true, Bool.not_eq_true', decide_eq_true_eq] at c3
    rcases List.mem_append.mp hx12 with hx1 | hx2
    · have c1 := List.of_mem_filter hx1
      simp only [Bool.and_eq_true, Bool.not_eq_true'] at c1
      rw [c1.1] at c3
      exact Bool.false_eq_true.mp c3.1.1
    · have c2 := List.of_mem_filter hx2
      have hko := List.mem_of_mem_filter hx3
      simp only [Bool.and_eq_true, Bool.not_eq_true'] at c2
      rw [Dict.mem_keyset_iff] at hko
      rw [hko] at c2
      exact Bool.true_eq_false.mp c2.1

/-- **C5.** Defaults-reassignment diff: reassigning `defaults` from `oldD`
to `newD` over variables `vars` fires, inside one deferred batch, exactly
these notifications: `(NOT_SET, oldD[k])` for keys only in the old
defaults, `(newD[k], NOT_SET)` for keys only in the new defaults,
`(newD[k], oldD[k])` for keys in both whose default value differs — all
restricted to keys not shadowed by `vars` — and at most one notification
per key; flushing the single deferred batch invokes, for each emitted
notification, every callback registered for its key once with exactly that
`(current, previous)` pair. -/
theorem c5_defaults_reassignment_diff {V : Type} [DecidableEq V]
    (vars oldD newD : Dict V) (cbs : Config.CbMap) :
    (∀ (k : Key) (cur prev : Option V),
      (k, cur, prev) ∈ setDefaultsNotifs vars oldD newD ↔
        Dict.mem vars k = false ∧
        ((Dict.mem oldD k = true ∧ Dict.mem newD k = false ∧ cur = none ∧
            prev = Dict.lookup oldD k)
         ∨ (Dict.mem newD k = true ∧ Dict.mem oldD k = false ∧
            cur = Dict.lookup newD k ∧ prev = none)
         ∨ (Dict.mem oldD k = true ∧ Dict.mem newD k = true ∧
            Dict.lookup newD k ≠ Dict.lookup oldD k ∧
            cur = Dict.lookup newD k ∧ prev = Dict.lookup oldD k)))
    ∧ ((setDefaultsNotifs vars oldD newD).map (fun n => n.1)).Nodup
    ∧ ((∀ k2, ((Dict.lookup cbs k2).getD []).Nodup) →
        flushNotifs cbs (setDefaultsNotifs vars oldD newD)
          = (setDefaultsNotifs vars oldD newD).flatMap
              (fun n => ((Dict.lookup cbs n.1).getD []).map
                (fun cb => (n.1, cb, n.2.1, n.2.2)))) :=
  ⟨fun k cur prev => mem_setDefaultsNotifs_iff vars oldD newD k cur prev,
   setDefaultsNotifs_keys_nodup vars oldD newD,
   fun hcbs => flushNotifs_eq cbs _ (setDefaultsNotifs_keys_nodup vars oldD newD)
     hcbs⟩

/-- Witness for `c5_defaults_reassignment_diff`: the spec scenario —
defaults reassigned from `x: 1` to `x: 2, y: 5` with no local overrides
fires change `(2, 1)` for `x` and change `(5, NOT_SET)` for `y` through
one deferred batch. -/
theorem c5_defaults_reassignment_diff_witness :
    flushNotifs [("x", [0]), ("y", [1])]
        (setDefaultsNotifs ([] : Dict Int) [("x", 1)] [("x", 2), ("y", 5)])
      = [("y", 1, some 5, none), ("x", 0, some 2, some 1)] := by
  have h := (c5_defaults_reassignment_diff ([] : Dict Int) [("x", 1)]
    [("x", 2), ("y", 5)] [("x", [0]), ("y", [1])]).2.2 ?_
  · rw [h]
    decide
  · intro k2
    by_cases hx : ("x" : Key) = k2
    · simp [Dict.lookup, hx]
    · by_cases hy : ("y" : Key) = k2
      · simp [Dict.lookup, hx, hy]
      · simp [Dict.lookup, hx, hy]

mutual

theorem runCallbacks_events {V : Type} (t : CTree V) (p : List Nat) (k : Key)
    (cur prev : Option V) (df : Bool) :
    ∀ e ∈ runCallbacks t p k cur prev df, e.key = k ∧ ∃ s, e.path = p ++ s := by
  cases t with
  | node d cs =>
    intro e he
    simp only [runCallbacks] at he
    rcases List.mem_append.mp he with hown | hchild
    · by_cases hen : d.enabled
      · rw [if_pos hen] at hown
        obtain ⟨cb, _, rfl⟩ := List.mem_map.mp hown
        exact ⟨rfl, [], by simp⟩
      · rw [if_neg hen] at hown
        cases hown
    · obtain ⟨hk, j, s, hpath, _⟩ :=
        runChildCallbacks_events cs p 0 k cur prev (df || d.deferFlag) e hchild
      exact ⟨hk, j :: s, by simpa using hpath⟩

theorem runChildCallbacks_events {V : Type} (cs : List (CTree V)) (p : List Nat)
    (i : Nat) (k : Key) (cur prev : Option V) (df : Bool) :
    ∀ e ∈ runChildCallbacks cs p i k cur prev df,
      e.key = k ∧ ∃ j s, e.path = p ++ j :: s ∧ i ≤ j ∧
        ∃ c, cs.get? (j - i) = some c
          ∧ Dict.mem (CTree.dataOf c).vars k = false := by
  cases cs with
  | nil =>
    intro e he
    simp only [runChildCallbacks] at he
    cases he
  | cons c rest =>
    intro e he
    simp only [runChildCallbacks] at he
    rcases List.mem_append.mp he with hhead | htail
    · by_cases hmem : Dict.mem (CTree.dataOf c).vars k
      · rw [if_pos hmem] at hhead
        cases hhead
      · rw [if_neg hmem] at hhead
        obtain ⟨hk, s, hpath⟩ := runCallbacks_events c (p ++ [i]) k cur prev df e hhead
        refine ⟨hk, i, s, by simpa using hpath, Nat.le_refl i, c, ?_, ?_⟩
        · simp
        · simpa using hmem
    · obtain ⟨hk, j, s, hpath, hij, c', hget, hmem'⟩ :=
        runChildCallbacks_events rest p (i + 1) k cur prev df e htail
      refine ⟨hk, j, s, hpath, Nat.le_of_succ_le hij, c', ?_, hmem'⟩
      have hsub : j - i = (j - (i + 1)) + 1 := by omega
      rw [hsub]
      simpa using hget

end

theorem runCallbacks_shadow {V : Type} (d : NodeData V) (cs : List (CTree V))
    (i : Nat) (c : CTree V) (k k2 : Key) (cur prev : Option V) (df : Bool)
    (hc : cs.get? i = some c) (hk : Dict.mem (CTree.dataOf c).vars k = true) :
    noEventUnder i k (runCallbacks (CTree.node d cs) [] k2 cur prev df) := by
  rintro e he ⟨hhead, hkey⟩
  have hk2 : e.key = k2 := (runCallbacks_events _ _ _ _ _ _ e he).1
  have hkk : k = k2 := by
    rw [← hkey, hk2]
  subst hkk
  simp only [runCallbacks] at he
  rcases List.mem_append.mp he with hown | hchild
  · by_cases hen : d.enabled
    · rw [if_pos hen] at hown
      obtain ⟨cb, _, rfl⟩ := List.mem_map.mp hown
      simp at hhead
    · rw [if_neg hen] at hown
      cases hown
  · obtain ⟨_, j, s, hpath, _, c', hget, hmem'⟩ :=
      runChildCallbacks_events cs [] 0 k cur prev _ e hchild
    simp only [List.nil_append] at hpath
    rw [hpath] at hhead
    obtain rfl : j = i := by simpa using hhead
    rw [Nat.sub_zero] at hget
    rw [hc] at hget
    obtain rfl : c' = c := by
      injection hget with hcc
      exact hcc.symm
    rw [hk] at hmem'
    exact Bool.true_eq_false.mp hmem'

theorem effAtChild_of_shadow {V : Type} (rootDflt : Dict V) (d : NodeData V)
    (cs : List (CTree V)) (i : Nat) (c : CTree V) (k : Key) (w : V)
    (hc : cs.get? i = some c)
    (hw : Dict.lookup (CTree.dataOf c).vars k = some w) :
    effAtChild rootDflt (CTree.node d cs) i k = some w := by
  simp only [effAtChild, hc, hw]

/-- **C4.** Shadow boundary: when the child at index `i` of a parent
configuration shadows key `k` in its own variables, no mutation of the
parent affecting `k` — a set of `k`, a delete of `k`, or a defaults
reassignment — produces any callback event on that child (or below it) for
`k`; the parent's children are untouched and the child's effective value
for `k` is unchanged by each of these mutations. -/
theorem c4_shadow_boundary {V : Type} [DecidableEq V] (rootDflt oldD newD : Dict V)
    (d : NodeData V) (cs : List (CTree V)) (i : Nat) (c : CTree V) (k : Key)
    (v : V) (hc : cs.get? i = some c)
    (hk : Dict.mem (CTree.dataOf c).vars k = true) :
    noEventUnder i k (treeSetValue rootDflt (CTree.node d cs) k v).2.2
    ∧ (treeSetValue rootDflt (CTree.node d cs) k v).1.childrenOf = cs
    ∧ effAtChild rootDflt (treeSetValue rootDflt (CTree.node d cs) k v).1 i k
        = effAtChild rootDflt (CTree.node d cs) i k
    ∧ (∀ t' evs, treeDeleteKey rootDflt (CTree.node d cs) k = .ok (t', evs) →
        noEventUnder i k evs ∧ CTree.childrenOf t' = cs
        ∧ effAtChild rootDflt t' i k = effAtChild rootDflt (CTree.node d cs) i k)
    ∧ noEventUnder i k (treeSetDefaults (CTree.node d cs) oldD newD)
    ∧ effAtChild newD (CTree.node d cs) i k
        = effAtChild oldD (CTree.node d cs) i k := by
  obtain ⟨w, hw⟩ := Option.isSome_iff_exists.mp hk
  have heff : ∀ (rd : Dict V) (d2 : NodeData V),
      effAtChild rd (CTree.node d2 cs) i k = some w :=
    fun rd d2 => effAtChild_of_shadow rd d2 cs i c k w hc hw
  have hshadow : ∀ (d2 : NodeData V) (k2 : Key) (cur prev : Option V) (df : Bool),
      noEventUnder i k (runCallbacks (CTree.node d2 cs) [] k2 cur prev df) :=
    fun d2 k2 cur prev df => runCallbacks_shadow d2 cs i c k k2 cur prev df hc hk
  refine ⟨?_, ?_, ?_, ?_, ?_, ?_⟩
  · cases hl : Dict.lookup d.vars k with
    | some pv =>
      simp only [treeSetValue, hl]
      by_cases hne : decide (pv ≠ v) = true
      · rw [if_pos hne]
        exact hshadow _ k (some v) (some pv) false
      · rw [if_neg hne]
        intro e he
        cases he
    | none =>
      cases hl2 : Dict.lookup rootDflt k with
      | some pv =>
        simp only [treeSetValue, hl, hl2]
        by_cases hne : decide (pv ≠ v) = true
        · rw [if_pos hne]
          exact hshadow _ k (some v) (some pv) false
        · rw [if_neg hne]
          intro e he
          cases he
      | none =>
        simp only [treeSetValue, hl, hl2]
        exact hshadow _ k (some v) none false
  · cases hl : Dict.lookup d.vars k with
    | some pv => simp only [treeSetValue, hl, CTree.childrenOf]
    | none =>
      cases hl2 : Dict.lookup rootDflt k <;>
        simp only [treeSetValue, hl, hl2, CTree.childrenOf]
  · cases hl : Dict.lookup d.vars k with
    | some pv =>
      simp only [treeSetValue, hl, heff]
    | none =>
      cases hl2 : Dict.lookup rootDflt k <;>
        simp only [treeSetValue, hl, hl2, heff]
  · intro t' evs hok
    rw [treeDeleteKey] at hok
    cases hl : Dict.lookup d.vars k with
    | none =>
      rw [hl] at hok
      cases hok
    | some value =>
      rw [hl] at hok
      cases hl2 : Dict.lookup rootDflt k with
      | none =>
        rw [hl2] at hok
        injection hok with hpair
        rw [Prod.mk.injEq] at hpair
        obtain ⟨h1, h2⟩ := hpair
        subst h1
        subst h2
        refine ⟨hshadow _ k none (some value) false, rfl, ?_⟩
        simp only [heff]
      | some nv =>
        rw [hl2] at hok
        injection hok with hpair
        rw [Prod.mk.injEq] at hpair
        obtain ⟨h1, h2⟩ := hpair
        subst h1
        subst h2
        refine ⟨hshadow _ k (some nv) (some value) false, rfl, ?_⟩
        simp only [heff]
  · rw [treeSetDefaults]
    intro e he hcontra
    obtain ⟨n, hn, hme⟩ := List.mem_flatMap.mp he
    exact hshadow d n.1 n.2.1 n.2.2 true e hme hcontra
  · rw [heff newD d, heff oldD d]

/-- Witness for `c4_shadow_boundary`: a parent (empty variables, one
callback on `a`) with one child shadowing `a = 9`; setting `a = 3` on the
parent produces no event under the child, and reassigning the parent's
defaults from `a: 1` to `a: 2` leaves the child's effective value for `a`
unchanged. -/
theorem c4_shadow_boundary_witness :
    noEventUnder 0 "a"
      (treeSetValue ([] : Dict Int)
        (CTree.node ⟨[], [("a", [5])], true, false⟩
          [CTree.node ⟨[("a", 9)], [("a", [7])], true, false⟩ []])
        "a" 3).2.2
    ∧ effAtChild [("a", 2)]
        (CTree.node (⟨[], [("a", [5])], true, false⟩ : NodeData Int)
          [CTree.node ⟨[("a", 9)], [("a", [7])], true, false⟩ []]) 0 "a"
      = effAtChild [("a", 1)]
        (CTree.node (⟨[], [("a", [5])], true, false⟩ : NodeData Int)
          [CTree.node ⟨[("a", 9)], [("a", [7])], true, false⟩ []]) 0 "a" := by
  have h := c4_shadow_boundary ([] : Dict Int) [("a", 1)] [("a", 2)]
    ⟨[], [("a", [5])], true, false⟩
    [CTree.node ⟨[("a", 9)], [("a", [7])], true, false⟩ []] 0
    (CTree.node ⟨[("a", 9)], [("a", [7])], true, false⟩ []) "a" 3 rfl rfl
  exact ⟨h.1, h.2.2.2.2.2⟩

/-- **C6 counterexample.** The bookkeeping invariant is false on the code:
give configuration 1 the configuration 0 as defaults, then reassign its
defaults to a plain mapping.  Configuration 1 still appears in
configuration 0's child list even though its current defaults is not 0 —
the `defaults` setter performs no deregistration from the old parent. -/
theorem c6_counterexample :
    (assignDefaults (assignDefaults ⟨fun _ => none, fun _ => []⟩ 1 (some 0)) 1
        none).children 0 = [1]
    ∧ (assignDefaults (assignDefaults ⟨fun _ => none, fun _ => []⟩ 1 (some 0)) 1
        none).dflt 1 = none :=
  ⟨rfl, rfl⟩

/-- **C6 (amended).** Parent/child bookkeeping as the code performs it:
an effective defaults reassignment updates the defaults pointer and, when
the new defaults is a `Configuration`, appends the child once to the new
parent's child list; the child list of every other configuration — in
particular the old parent's — is left unchanged, so no deregistration
happens on reassignment.  Destruction removes the dying configuration
from its current parent's child list only. -/
theorem c6_parent_child_bookkeeping (s : CfgNet) (c p : Nat) (newD : Option Nat) :
    ((assignDefaults s c newD).dflt c = newD)
    ∧ (newD = some p → newD ≠ s.dflt c →
        (assignDefaults s c newD).children p = s.children p ++ [c])
    ∧ (∀ q, newD ≠ some q → (assignDefaults s c newD).children q = s.children q)
    ∧ (s.dflt c = some p → (destroyCfg s c).children p = (s.children p).erase c)
    ∧ (∀ q, s.dflt c ≠ some q → (destroyCfg s c).children q = s.children q) := by
  refine ⟨?_, ?_, ?_, ?_, ?_⟩
  · rw [assignDefaults]
    by_cases h : newD = s.dflt c
    · rw [if_pos h]
      exact h.symm
    · rw [if_neg h]
      cases newD with
      | none => simp [updFun]
      | some p2 => simp [updFun]
  · intro hp hne
    subst hp
    rw [assignDefaults, if_neg hne]
    simp [updFun]
  · intro q hq
    rw [assignDefaults]
    by_cases h : newD = s.dflt c
    · rw [if_pos h]
    · rw [if_neg h]
      cases newD with
      | none => rfl
      | some p2 =>
        have hqp : q ≠ p2 := fun he => hq (by rw [he])
        simp [updFun, hqp]
  · intro hp
    simp [destroyCfg, hp, updFun]
  · intro q hq
    cases hd : s.dflt c with
    | none => simp [destroyCfg, hd]
    | some p2 =>
      have hqp : q ≠ p2 := fun he => hq (by rw [hd, he])
      simp [destroyCfg, hd, updFun, hqp]

/-- Witness for `c6_parent_child_bookkeeping`: assigning configuration 0
as the defaults of configuration 1 appends 1 to 0's child list. -/
theorem c6_parent_child_bookkeeping_witness :
    (assignDefaults ⟨fun _ => none, fun _ => []⟩ 1 (some 0)).children 0
      = [] ++ [1] :=
  (c6_parent_child_bookkeeping ⟨fun _ => none, fun _ => []⟩ 1 0 (some 0)).2.1
    rfl (by simp)

theorem runSeq_inv {V : Type} [DecidableEq V] :
    ∀ (ops : List (Key × V)) (c : Config V) (n0 : Nat),
    allNotifyingKV c ops = true →
    runSeq ⟨c, 0, 0, n0, 0⟩ ops
      = ⟨ops.foldl (fun c2 kv => (Config.setValue c2 kv.1 kv.2).1) c, 0, 0,
         n0 + ops.length, 0⟩ := by
  intro ops
  induction ops with
  | nil =>
    intro c n0 _
    simp [runSeq]
  | cons kv rest ih =>
    intro c n0 hn
    rw [allNotifyingKV, Bool.and_eq_true] at hn
    rw [runSeq, List.foldl_cons, List.foldl_cons]
    have hstep : seqStep ⟨c, 0, 0, n0, 0⟩ kv
        = ⟨(Config.setValue c kv.1 kv.2).1, 0, 0, n0 + 1, 0⟩ := by
      rw [seqStep, setStep]
      simp only [hn.1, Config.setValue_requiresSave_of_notif c kv.1 kv.2 hn.1,
        if_true]
      rw [saveStep, modifyEventStep]
      simp
    rw [hstep]
    have := ih (Config.setValue c kv.1 kv.2).1 (n0 + 1) hn.2
    rw [runSeq] at this
    rw [this]
    congr 1
    simp
    omega

/-- **C8.** Self-write suppression: with autosave and autoload enabled,
every `save()` increments the autoloader's ignore count before the write
(and queues a modify event), a modify event for the watched path seen with
a positive ignore count only decrements the count without loading, and a
sequence of N notifying `set()` calls — each of whose save-triggered
modify event is processed before the next set — yields exactly N change
notifications, zero watcher-triggered `load()` calls, and a drained event
queue with a zero ignore count. -/
theorem c8_self_write_suppression {V : Type} [DecidableEq V]
    (c : Config V) (ops : List (Key × V))
    (hnot : allNotifyingKV c ops = true) :
    ((runSeq ⟨c, 0, 0, 0, 0⟩ ops).changeNotifs = ops.length
     ∧ (runSeq ⟨c, 0, 0, 0, 0⟩ ops).loads = 0
     ∧ (runSeq ⟨c, 0, 0, 0, 0⟩ ops).ignoreCount = 0
     ∧ (runSeq ⟨c, 0, 0, 0, 0⟩ ops).pending = 0)
    ∧ (∀ st : AutoState V, (saveStep st).ignoreCount = st.ignoreCount + 1
        ∧ (saveStep st).pending = st.pending + 1)
    ∧ (∀ st : AutoState V, st.pending ≠ 0 → st.ignoreCount ≠ 0 →
        (modifyEventStep st).loads = st.loads
        ∧ (modifyEventStep st).ignoreCount = st.ignoreCount - 1
        ∧ (modifyEventStep st).pending = st.pending - 1) := by
  refine ⟨?_, ?_, ?_⟩
  · rw [runSeq_inv ops c 0 hnot]
    simp
  · intro st
    exact ⟨rfl, rfl⟩
  · intro st hp hi
    refine ⟨?_, ?_, ?_⟩ <;> simp [modifyEventStep, hp, hi]

/-- Witness for `c8_self_write_suppression`: two notifying sets with
autosave and autoload enabled fire two change notifications and zero
loads, leaving the ignore count at zero. -/
theorem c8_self_write_suppression_witness :
    (runSeq ⟨Config.base ([] : Dict Int) [], 0, 0, 0, 0⟩
        [("a", 1), ("a", 2)]).changeNotifs = 2
    ∧ (runSeq ⟨Config.base ([] : Dict Int) [], 0, 0, 0, 0⟩
        [("a", 1), ("a", 2)]).loads = 0 := by
  have h := c8_self_write_suppression (Config.base ([] : Dict Int) [])
    [("a", 1), ("a", 2)] (by decide)
  exact ⟨h.1.1, h.1.2.1⟩

/-- **C9 counterexample.** The claim is false on the code: with policy
`manual` and autosave enabled before the scope, `saved.__exit__` restores
`autosave` to `True` first, and the autosave property setter immediately
performs a save — so an exit save does happen under the `manual` policy,
and restoration precedes (not follows) the policy save decision. -/
theorem c9_counterexample :
    (savedExitTrace "manual" true false true).2 = [SaveSrc.fromSetter]
    ∧ (savedExitTraceClaim "manual" true true).2 = []
    ∧ ([SaveSrc.fromSetter] : List SaveSrc) ≠ [] := by
  refine ⟨rfl, rfl, by simp⟩

/-- **C9 (amended).** `saved.__exit__` restores autosave to its pre-scope
value first and then executes the policy-determined save: the final
autosave equals the pre-scope value; the policy save happens exactly for
`exit`, and for `exit_no_errors` on a clean exit — never for `immediate`
or `manual`; restoring autosave from off to on itself triggers a save,
which precedes the policy save in the trace. -/
theorem c9_saved_exit_policy (policy : String) (was cur excNone : Bool) :
    (savedExitTrace policy was cur excNone).1 = was
    ∧ (savedExitTrace policy was cur excNone).2
        = (if was && !cur then [SaveSrc.fromSetter] else [])
          ++ (if shouldSaveOnExit policy excNone then [SaveSrc.fromPolicy] else [])
    ∧ (shouldSaveOnExit policy excNone = true ↔
        policy = "exit" ∨ (policy = "exit_no_errors" ∧ excNone = true))
    ∧ (SaveSrc.fromPolicy ∈ (savedExitTrace policy was cur excNone).2 ↔
        shouldSaveOnExit policy excNone = true)
    ∧ (SaveSrc.fromSetter ∈ (savedExitTrace policy was cur excNone).2 ↔
        (was = true ∧ cur = false)) := by
  refine ⟨?_, ?_, ?_, ?_, ?_⟩
  · cases was <;> cases cur <;> simp [savedExitTrace, autosaveAssign]
  · cases was <;> cases cur <;> simp [savedExitTrace, autosaveAssign]
  · simp [shouldSaveOnExit, Bool.or_eq_true, Bool.and_eq_true]
  · cases hs : shouldSaveOnExit policy excNone <;> cases was <;> cases cur <;>
      simp [savedExitTrace, autosaveAssign, hs]
  · cases hs : shouldSaveOnExit policy excNone <;> cases was <;> cases cur <;>
      simp [savedExitTrace, autosaveAssign, hs]

end MleConf
